import Mathlib

/-!
Verification development for the agentic PR-reviewer core: the sandboxed
tool-execution layer (`ToolExecutor`), the per-agent multi-turn tool-use loop,
and the multi-agent aggregation layer. JavaScript/TypeScript sources are
shallowly embedded: machine numbers become `Nat`/`Int`, fallible code returns
`Except`, JS strings are modelled through `List Char` operations mirroring the
exact ECMAScript string/RegExp semantics used by the source (ASCII fragment;
the source only ever manipulates ASCII metacharacters and the model-provided
message text through case-mapping, `\s`, `[^a-z0-9\s]`, `trim`, `substring`).
-/

/-! ### JS string primitives (ASCII fragment) -/

/-- The whitespace characters of the ECMAScript `\s` class and `trim()` that
are expressible in ASCII: space, tab, LF, CR, vertical tab, form feed.
(The Unicode space members are irrelevant to the embedded code paths.) -/
def isJsSpace (c : Char) : Bool :=
  c = ' ' || c = '\t' || c = '\n' || c = '\r' || c = '\x0b' || c = '\x0c'

/-- `String.prototype.trim` on a character list: strip leading and trailing
whitespace. -/
def jsTrimChars (l : List Char) : List Char :=
  ((l.dropWhile isJsSpace).reverse.dropWhile isJsSpace).reverse

/-- `String.prototype.trim`. -/
def jsTrim (s : String) : String :=
  String.mk (jsTrimChars s.toList)

/-- `.replace(/\s+/g, " ")`: every maximal whitespace run becomes one space.
The boolean flag records whether the previous character was part of a
whitespace run (in which case further whitespace is dropped). -/
def collapseWs : Bool → List Char → List Char
  | _, [] => []
  | prevWs, c :: cs =>
    if isJsSpace c then
      if prevWs then collapseWs true cs else ' ' :: collapseWs true cs
    else c :: collapseWs false cs

/-- `startsList n h` holds when `h` begins with `n`. -/
def startsList : List Char → List Char → Bool
  | [], _ => true
  | _ :: _, [] => false
  | a :: as, b :: bs => a = b && startsList as bs

/-- `String.prototype.includes` on character lists: `needle` occurs
contiguously inside `haystack`. -/
def hasSub (needle : List Char) : List Char → Bool
  | [] => needle.isEmpty
  | c :: rest => startsList needle (c :: rest) || hasSub needle rest

/-- `haystack.includes(needle)` for strings. -/
def strHasSub (haystack needle : String) : Bool :=
  hasSub needle.toList haystack.toList

/-- `String.prototype.split(sep)` for a one-character separator, on
character lists: maximal runs between separators, keeping empty pieces
(`"a\n".split("\n")` is `["a", ""]`, `"".split("\n")` is `[""]`). -/
def jsSplitChar (sep : Char) : List Char → List (List Char)
  | [] => [[]]
  | c :: cs =>
    if c = sep then [] :: jsSplitChar sep cs
    else
      match jsSplitChar sep cs with
      | s :: rest => (c :: s) :: rest
      | [] => [[c]]

/-- `s.split("\n")`. -/
def jsSplitNl (s : String) : List String :=
  (jsSplitChar '\n' s.toList).map String.mk

/-- Split a character list on `'/'` (the separator walk inside Node's
`path.posix.normalize`); always returns at least one (possibly empty)
segment. -/
def splitSlash : List Char → List (List Char)
  | [] => [[]]
  | c :: cs =>
    if c = '/' then [] :: splitSlash cs
    else
      match splitSlash cs with
      | s :: rest => (c :: s) :: rest
      | [] => [[c]]

/-! ### Data model: issues and severities (src/agents/base-agent.ts) -/

/-- The `severity` union type of `Issue`. -/
inductive Severity where
  | critical
  | high
  | medium
  | low
deriving DecidableEq, Repr

/-- `Issue` from src/agents/base-agent.ts: `{confidence, severity, line?,
file?, message, suggestion?}`. -/
structure Issue where
  confidence : Nat
  severity : Severity
  line : Option Nat
  file : Option String
  message : String
  suggestion : Option String
deriving DecidableEq, Repr

/-- `ToolUsageStats` from src/agents/base-agentic-agent.ts. -/
structure ToolUsageStats where
  toolName : String
  callCount : Nat
  totalTimeMs : Nat
deriving DecidableEq, Repr

/-- Token/cost accounting of one agent review (`usage` field). The JS `cost`
is a floating-point dollar amount that is only ever summed; it is modelled as
a natural number of micro-dollars. -/
structure UsageInfo where
  inputTokens : Nat
  outputTokens : Nat
  cost : Nat
deriving DecidableEq, Repr

/-- `AgenticAgentReview` from src/agents/base-agentic-agent.ts. -/
structure AgenticAgentReview where
  agentName : String
  issues : List Issue
  summary : String
  turnCount : Nat
  toolUsage : List ToolUsageStats
  explorationLog : List String
  usage : UsageInfo
deriving DecidableEq, Repr

/-! ### Aggregator (src/multi-agent-agentic-reviewer.ts, lines 146-237) -/

/-- `normalizeMessage` (lines 211-219): lower-case, drop every character
outside `[a-z0-9\s]`, collapse whitespace runs to single spaces, trim, and
truncate to 100 characters. `Char.toLower` agrees with
`String.prototype.toLowerCase` on ASCII. -/
def normalizeMessage (message : String) : String :=
  let lowered := message.toList.map Char.toLower
  let kept := lowered.filter
    (fun c => ('a' ≤ c && c ≤ 'z') || ('0' ≤ c && c ≤ '9') || isJsSpace c)
  String.mk ((jsTrimChars (collapseWs false kept)).take 100)

/-- The deduplication key (line 200): `` `${issue.line || "global"}:...` ``.
JavaScript `||` tests truthiness, so a `line` of `0` (and an absent `line`)
both yield the literal `"global"`. -/
def dedupKey (issue : Issue) : String :=
  (match issue.line with
   | some n => if n = 0 then "global" else toString n
   | none => "global") ++ ":" ++ normalizeMessage issue.message

/-- The loop body of `deduplicateIssues` (lines 198-206), with the `seen`
set of keys made explicit. -/
def dedupGo (seen : List String) : List Issue → List Issue
  | [] => []
  | issue :: rest =>
    let key := dedupKey issue
    if seen.contains key then dedupGo seen rest
    else issue :: dedupGo (key :: seen) rest

/-- `deduplicateIssues` (lines 194-209). -/
def deduplicateIssues (issues : List Issue) : List Issue :=
  dedupGo [] issues

/-- One insertion step of a stable descending sort by confidence: the element
is placed before the first entry whose confidence does not exceed it. -/
def insertByConf (issue : Issue) : List Issue → List Issue
  | [] => [issue]
  | j :: rest =>
    if j.confidence ≤ issue.confidence then issue :: j :: rest
    else j :: insertByConf issue rest

/-- `uniqueIssues.sort((a, b) => b.confidence - a.confidence)` (line 160).
`Array.prototype.sort` is a stable sort (ECMAScript 2019); its denotation for
this comparator — descending by confidence, ties keeping their prior relative
order — is realised here by stable insertion sort. -/
def sortByConfDesc (issues : List Issue) : List Issue :=
  issues.foldr insertByConf []

/-- `reviews.flatMap((r) => r.issues)` (line 149). -/
def flattenIssues (reviews : List AgenticAgentReview) : List Issue :=
  (reviews.map AgenticAgentReview.issues).flatten

/-- `allIssues.filter((issue) => issue.confidence >= minConfidence)`
(lines 152-154). -/
def filterByConfidence (minConfidence : Nat) (issues : List Issue) : List Issue :=
  issues.filter (fun issue => minConfidence ≤ issue.confidence)

/-- The issue-aggregation pipeline of `multiAgenticReview` (lines 149-160):
flatten, filter by confidence, deduplicate, sort descending by confidence. -/
def aggregateIssues (reviews : List AgenticAgentReview) (minConfidence : Nat) : List Issue :=
  sortByConfDesc (deduplicateIssues (filterByConfidence minConfidence (flattenIssues reviews)))

/-! ### Multi-agent runner (src/multi-agent-agentic-reviewer.ts, lines 86-144)

`agent.review` performs model transport; the claims quantify over a
deterministic review function, embedded as an explicit function argument
`reviewAgent : α → AgenticAgentReview`. -/

/-- Parallel mode (lines 87-117): `Promise.all(activeAgents.map(...))`.
`Promise.all` resolves to the results in input order, so with a
deterministic review function its denotation is `List.map`. -/
def runAgentsParallel {α : Type} (agents : List α)
    (reviewAgent : α → AgenticAgentReview) : List AgenticAgentReview :=
  agents.map reviewAgent

/-- The sequential `for` loop accumulator (lines 119-143): reviews are pushed
one by one onto an initially empty array. -/
def runAgentsSeqGo {α : Type} (reviewAgent : α → AgenticAgentReview)
    (acc : List AgenticAgentReview) : List α → List AgenticAgentReview
  | [] => acc
  | agent :: rest => runAgentsSeqGo reviewAgent (acc ++ [reviewAgent agent]) rest

/-- Sequential mode (lines 118-144). -/
def runAgentsSequential {α : Type} (agents : List α)
    (reviewAgent : α → AgenticAgentReview) : List AgenticAgentReview :=
  runAgentsSeqGo reviewAgent [] agents

/-- The result fields of `multiAgenticReview` that do not carry wall-clock
time: issues, per-agent reviews, summed cost, summed tool calls. The
`timing` record (and per-agent `Date.now()` deltas) is the spec-sanctioned
difference between the modes and is not part of the compared value. -/
structure MultiAgenticResult where
  issues : List Issue
  agentReviews : List AgenticAgentReview
  totalCost : Nat
  totalToolCalls : Nat
deriving DecidableEq, Repr

/-- `multiAgenticReview` (lines 86-192), from the point where the active
agent list is fixed: run the agents in the requested mode, then aggregate
(filter → deduplicate → sort), then sum cost and tool-call counts. -/
def multiAgenticReview {α : Type} (parallelExecution : Bool) (agents : List α)
    (reviewAgent : α → AgenticAgentReview) (minConfidence : Nat) : MultiAgenticResult :=
  let reviews :=
    if parallelExecution then runAgentsParallel agents reviewAgent
    else runAgentsSequential agents reviewAgent
  { issues := aggregateIssues reviews minConfidence
    agentReviews := reviews
    totalCost := reviews.foldl (fun sum r => sum + r.usage.cost) 0
    totalToolCalls := reviews.foldl
      (fun sum r => sum + r.toolUsage.foldl (fun s t => s + t.callCount) 0) 0 }

/-! ### Path validation (src/agentic/tool-executor.ts, lines 512-527)

`validatePath` uses Node's `path.isAbsolute` and `path.posix.normalize`;
both are embedded below following Node's implementation. -/

/-- `path.posix.isAbsolute`: the path starts with `'/'`. -/
def jsIsAbsolute (p : String) : Bool :=
  match p.toList with
  | [] => false
  | c :: _ => c = '/'

/-- The segment-resolution walk of Node's `normalizeString` (the core of
`path.posix.normalize`): empty and `.` segments are dropped; `..` pops the
previous real segment, or — when `allowUp` (set for relative paths) — is kept
when there is nothing left to pop. `acc` is the reversed list of resolved
segments. -/
def resolveSegs (allowUp : Bool) (acc : List (List Char)) : List (List Char) → List (List Char)
  | [] => acc
  | seg :: rest =>
    if seg = [] || seg = ['.'] then resolveSegs allowUp acc rest
    else if seg = ['.', '.'] then
      match acc with
      | [] => resolveSegs allowUp (if allowUp then [['.', '.']] else []) rest
      | top :: accRest =>
        if top = ['.', '.'] then
          resolveSegs allowUp (if allowUp then seg :: acc else acc) rest
        else resolveSegs allowUp accRest rest
    else resolveSegs allowUp (seg :: acc) rest

/-- Join resolved segments with `'/'`. -/
def joinSlash : List (List Char) → List Char
  | [] => []
  | [seg] => seg
  | seg :: rest => seg ++ '/' :: joinSlash rest

/-- `path.posix.normalize` (Node): resolve `.`/`..`/empty segments, restore a
leading `/` for absolute paths and a single trailing `/`, and return `"."`
(or `"/"`, `"./"`) when everything cancels. -/
def pathNormalize (p : String) : String :=
  if p = "" then "."
  else
    let l := p.toList
    let isAbs := jsIsAbsolute p
    let trailing := l.getLast? = some '/'
    let resolved := (resolveSegs (!isAbs) [] (splitSlash l)).reverse
    let body := joinSlash resolved
    if body = [] then
      if isAbs then "/" else if trailing then "./" else "."
    else
      let body := if trailing then body ++ ['/'] else body
      String.mk (if isAbs then '/' :: body else body)

/-- `ToolExecutor.validatePath` (lines 512-527): reject absolute paths, then
normalize and reject any normalized path that *includes* the substring
`".."`. -/
def validatePath (filePath : String) : Except String String :=
  if jsIsAbsolute filePath then Except.error "Absolute paths are not allowed"
  else
    let normalized := pathNormalize filePath
    if strHasSub normalized ".." then Except.error "Directory traversal is not allowed"
    else Except.ok normalized

/-- `path.posix.join` of the two arguments used at line 292: empty parts are
skipped, the rest are joined with `/` and normalized (`"."` for an empty
join). -/
def jsPathJoin (a b : String) : String :=
  let joined := if a = "" then b else if b = "" then a else a ++ "/" ++ b
  if joined = "" then "." else pathNormalize joined

/-- Whether the normalized string contains `".."` as a whole path segment
(the spec's "parent-directory segment"). -/
def hasParentSeg (s : String) : Bool :=
  (splitSlash s.toList).contains ['.', '.']

/-! ### ToolExecutor operations (src/agentic/tool-executor.ts) -/

def MAX_FILE_SIZE : Nat := 50 * 1024

def MAX_SEARCH_LINES : Nat := 100

def MAX_GIT_COMMITS : Nat := 20

/-- The filesystem visible through `Bun.file`: existence, size and text of a
path. -/
structure FileSys where
  fileExists : String → Bool
  fileSize : String → Nat
  fileText : String → String

/-- Outcome of one spawned subprocess (`Bun.spawn` + collected pipes). -/
structure ProcOut where
  exitCode : Int
  stdout : String
  stderr : String

/-- The external world of a `ToolExecutor`: the repository root it was
constructed with, the filesystem, and the four child-process binaries it may
spawn (each mapped from its argument list to a process outcome). -/
structure ToolEnv where
  repoPath : String
  fs : FileSys
  rg : List String → ProcOut
  grep : List String → ProcOut
  find : List String → ProcOut
  git : List String → ProcOut

/-- `Math.round(n / d)` for naturals: half-up rounding. -/
def mathRoundDiv (n d : Nat) : Nat :=
  (2 * n + d) / (2 * d)

/-- `ToolExecutor.readFile` (lines 290-308). The second component records
every filesystem path touched (`Bun.file(fullPath)`): validation failures
return before any filesystem access, so their access list is empty. -/
def readFile (fs : FileSys) (repoPath filePath : String) :
    Except String String × List String :=
  match validatePath filePath with
  | Except.error e => (Except.error e, [])
  | Except.ok validatedPath =>
    let fullPath := jsPathJoin repoPath validatedPath
    if !(fs.fileExists fullPath) then
      (Except.error ("File not found: " ++ filePath), [fullPath])
    else if fs.fileSize fullPath > MAX_FILE_SIZE then
      (Except.error ("File too large (" ++ toString (mathRoundDiv (fs.fileSize fullPath) 1024) ++
        "KB). Maximum size is " ++ toString (MAX_FILE_SIZE / 1024) ++ "KB."), [fullPath])
    else (Except.ok (fs.fileText fullPath), [fullPath])

/-- `ToolExecutor.searchWithRipgrep` (lines 329-367): exit code 1 means "no
matches" (not an error), any other nonzero code throws, and results are
capped at `MAX_SEARCH_LINES` non-empty lines with an omission trailer. -/
def searchWithRipgrep (env : ToolEnv) (pat : String) (filePat : Option String) :
    Except String String :=
  let args := ["-n", "-i", pat] ++ (match filePat with
    | some fp => ["-g", fp]
    | none => [])
  let proc := env.rg args
  if proc.exitCode = 1 then Except.ok "No matches found."
  else if proc.exitCode ≠ 0 then Except.error ("ripgrep failed: " ++ proc.stderr)
  else
    let lines := (jsSplitNl proc.stdout).filter (fun l => jsTrim l != "")
    if lines.length > MAX_SEARCH_LINES then
      Except.ok (String.intercalate "\n" (lines.take MAX_SEARCH_LINES) ++
        "\n\n... (" ++ toString (lines.length - MAX_SEARCH_LINES) ++
        " more matches omitted. Refine your search pattern.)")
    else Except.ok (if proc.stdout = "" then "No matches found." else proc.stdout)

/-- `ToolExecutor.searchWithGrep` (lines 372-433): the grep fallback never
throws — both exit code 1 and any other failure produce "No matches found.";
the same line cap and trailer apply. A file pattern is first resolved through
`find` (the `.replace(/\*/g, "*")` in the source is the identity). -/
def searchWithGrep (env : ToolEnv) (pat : String) (filePat : Option String) : String :=
  let args := ["-r", "-n", "-i", "-E", pat]
  let runGrep := fun (args : List String) =>
    let proc := env.grep args
    if proc.exitCode = 1 then "No matches found."
    else if proc.exitCode ≠ 0 then "No matches found."
    else
      let lines := (jsSplitNl proc.stdout).filter (fun l => jsTrim l != "")
      if lines.length > MAX_SEARCH_LINES then
        String.intercalate "\n" (lines.take MAX_SEARCH_LINES) ++
          "\n\n... (" ++ toString (lines.length - MAX_SEARCH_LINES) ++
          " more matches omitted. Refine your search pattern.)"
      else (if proc.stdout = "" then "No matches found." else proc.stdout)
  match filePat with
  | some fp =>
    let findProc := env.find [".", "-name", fp, "-type", "f"]
    let fileList := (jsSplitNl findProc.stdout).filter (fun f => jsTrim f != "")
    if fileList.length = 0 then "No matching files found."
    else runGrep (args ++ fileList)
  | none => runGrep (args ++ ["."])

/-- `ToolExecutor.searchCode` (lines 313-324): try ripgrep, fall back to grep
when it throws. -/
def searchCode (env : ToolEnv) (pat : String) (filePat : Option String) :
    Except String String :=
  match searchWithRipgrep env pat filePat with
  | Except.ok r => Except.ok r
  | Except.error _ => Except.ok (searchWithGrep env pat filePat)

/-- `ToolExecutor.getGitHistory` (lines 438-466): clamp the limit to
`MAX_GIT_COMMITS`, validate the optional path, run `git log`, and report a
nonzero exit as an error. -/
def getGitHistory (env : ToolEnv) (filePath : Option String) (lim : Nat) :
    Except String String :=
  let actualLimit := min lim MAX_GIT_COMMITS
  let baseArgs := ["log", "-n" ++ toString actualLimit, "--oneline"]
  let argsE : Except String (List String) :=
    match filePath with
    | none => Except.ok baseArgs
    | some fp =>
      match validatePath fp with
      | Except.error e => Except.error e
      | Except.ok v => Except.ok (baseArgs ++ ["--follow", "--", v])
  match argsE with
  | Except.error e => Except.error e
  | Except.ok args =>
    let proc := env.git args
    if proc.exitCode ≠ 0 then Except.error ("Git history failed: " ++ proc.stderr)
    else Except.ok (if proc.stdout = "" then "No commit history found." else proc.stdout)

/-- A JS template literal stringifies `undefined` as `"undefined"`. -/
def jsUndef (o : Option String) : String :=
  o.getD "undefined"

/-- `ToolExecutor.findSymbolDefinition` (lines 471-498): build a kind-specific
regex and delegate to `searchCode`. Literal `{` characters of the source
patterns appear as `\x7b`. In the `default` branch the raw `symbol` value is
the pattern; a missing symbol there reaches `Bun.spawn` as `undefined`, whose
throw is modelled as the Node type error. -/
def findSymbolDefinition (env : ToolEnv) (symbol : Option String) (typ : Option String) :
    Except String String :=
  match typ with
  | some "function" =>
    searchCode env ("(function\\s+" ++ jsUndef symbol ++ "|const\\s+" ++ jsUndef symbol ++
      "\\s*=|" ++ jsUndef symbol ++ "\\s*\\([^)]*\\)\\s*\x7b|" ++ jsUndef symbol ++
      ":\\s*\\([^)]*\\)\\s*=>)") none
  | some "class" => searchCode env ("class\\s+" ++ jsUndef symbol) none
  | some "interface" => searchCode env ("interface\\s+" ++ jsUndef symbol) none
  | some "type" => searchCode env ("type\\s+" ++ jsUndef symbol) none
  | some "any" =>
    searchCode env ("(class|interface|type|function|const)\\s+" ++ jsUndef symbol) none
  | _ =>
    match symbol with
    | some s => searchCode env s none
    | none => Except.error "The \"path\" argument must be of type string. Received undefined"

/-- `ToolExecutor.findUsages` (lines 503-507). -/
def findUsages (env : ToolEnv) (symbol : String) : Except String String :=
  searchCode env ("\\b" ++ symbol ++ "\\b") none

/-! ### Tool dispatcher (src/agentic/tool-executor.ts, lines 247-285) -/

/-- `ToolExecutionResult` from src/agentic/types.ts. -/
structure ToolExecutionResult where
  success : Bool
  result : Option String
  error : Option String
  executionTimeMs : Nat
deriving DecidableEq, Repr

/-- The `input` object handed to `executeTool`: each property the five tools
read, `none` standing for a missing property (JS `undefined`). -/
structure ToolInput where
  path : Option String
  pattern : Option String
  filePattern : Option String
  limit : Option Nat
  symbol : Option String
  typ : Option String
deriving DecidableEq, Repr

/-- The five tool names `executeTool` dispatches on. -/
def knownToolNames : List String :=
  ["read_file", "search_code", "get_git_history", "find_symbol_definition", "find_usages"]

/-- `ToolExecutor.executeTool` (lines 247-285): dispatch on the tool name,
catch every thrown error as `success := false`, and stamp
`Date.now() - startTime` on both branches. `startTime`/`endTime` are the two
`Date.now()` readings. A missing required string that JS would pass to
`path.isAbsolute`/`Bun.spawn` as `undefined` throws there; that throw is
modelled as the Node type-error message (caught the same way). For
`get_git_history`, `input.limit || 10` is truthiness again: a limit of `0`
becomes 10. -/
def executeTool (env : ToolEnv) (name : String) (input : ToolInput)
    (startTime endTime : Nat) : ToolExecutionResult :=
  let attempt : Except String String :=
    match name with
    | "read_file" =>
      match input.path with
      | some p => (readFile env.fs env.repoPath p).1
      | none => Except.error "The \"path\" argument must be of type string. Received undefined"
    | "search_code" =>
      match input.pattern with
      | some pat => searchCode env pat input.filePattern
      | none => Except.error "The \"path\" argument must be of type string. Received undefined"
    | "get_git_history" =>
      getGitHistory env input.path
        (match input.limit with
         | some n => if n = 0 then 10 else n
         | none => 10)
    | "find_symbol_definition" => findSymbolDefinition env input.symbol input.typ
    | "find_usages" =>
      findUsages env (jsUndef input.symbol)
    | _ => Except.error ("Unknown tool: " ++ name)
  match attempt with
  | Except.ok result =>
    { success := true, result := some result, error := none,
      executionTimeMs := endTime - startTime }
  | Except.error e =>
    { success := false, result := none, error := some e,
      executionTimeMs := endTime - startTime }

/-! ### Issue parsing (src/agents/base-agentic-agent.ts, lines 189-217) -/

/-- One match of the issue pattern
`/\[CONFIDENCE:\s*(\d+)\](?:\s*(?:Line\s+(\d+):?|File:\s*([^\n]+))?)?\s*(.+?)(?=\[CONFIDENCE:|$)/gs`:
the four capture groups (`g1` the digits after `CONFIDENCE:`, `g2` an optional
line number, `g3` an optional file name, `g4` the message text). The RegExp
scan that produces the successive matches is the model-output tokenizer; the
per-match processing below is the translated source. -/
structure RegexMatch where
  g1 : String
  g2 : Option String
  g3 : Option String
  g4 : Option String
deriving DecidableEq, Repr

/-- `parseInt` on the digit strings produced by `\d+` (the only inputs the
source feeds it): the numeric value, `0` for the `"0"` fallback of
`match[1] || "0"`. -/
def jsParseIntDigits (s : String) : Nat :=
  (s.toNat?).getD 0

/-- The per-match body of `parseIssues` (lines 195-213): parse confidence,
optional line and file (both JS-truthiness guarded), trim the message, and
derive severity from confidence with the 90/80/70 thresholds. `suggestion` is
never set. -/
def processIssueMatch (m : RegexMatch) : Issue :=
  let confidence := jsParseIntDigits (if m.g1 = "" then "0" else m.g1)
  let line := match m.g2 with
    | some s => if s = "" then none else some (jsParseIntDigits s)
    | none => none
  let file := match m.g3 with
    | some s => if s = "" then none else some s
    | none => none
  let message := match m.g4 with
    | some s => jsTrim s
    | none => ""
  let severity :=
    if confidence ≥ 90 then Severity.critical
    else if confidence ≥ 80 then Severity.high
    else if confidence ≥ 70 then Severity.medium
    else Severity.low
  { confidence := confidence, severity := severity, line := line, file := file,
    message := message, suggestion := none }

/-- `BaseAgenticAgent.parseIssues` (lines 189-217) over the list of regex
matches found in the review text. -/
def parseIssues (ms : List RegexMatch) : List Issue :=
  ms.map processIssueMatch

/-! ### Agent loop (src/agentic/agentic-reviewer.ts, lines 82-230)

The Anthropic client is embedded as a deterministic function from the
conversation so far to a model response; tool execution as a function from
tool name and input to a `ToolExecutionResult`. Console output is modelled by
collecting the warning lines the loop emits. -/

/-- The `stop_reason` values the loop inspects; every other value (e.g.
`stop_sequence`) falls through all three checks and the loop continues. -/
inductive StopReason where
  | endTurn
  | maxTokens
  | toolUse
  | otherReason
deriving DecidableEq, Repr

/-- Content blocks of messages: model text, model tool requests, and the
tool-result blocks the loop sends back. -/
inductive ContentBlock where
  | text (s : String)
  | toolUseB (id : String) (name : String) (input : ToolInput)
  | toolResult (toolUseId : String) (content : String) (isError : Bool)
deriving DecidableEq, Repr

/-- Message roles. -/
inductive Role where
  | user
  | assistant
deriving DecidableEq, Repr

/-- One conversation message. The source's initial prompt is a plain string;
it is modelled as a single text block (the extraction code's
`Array.isArray` else-branch is only reachable for that user message, whose
role check fails first). -/
structure Message where
  role : Role
  content : List ContentBlock
deriving DecidableEq, Repr

/-- A model response: stop reason plus content blocks. -/
structure ModelResponse where
  stopReason : StopReason
  content : List ContentBlock
deriving DecidableEq, Repr

/-- The stats-map update of lines 156-163: `Map.get` with a fresh zero entry,
increment, `Map.set`. JS `Map` preserves insertion order and `set` of an
existing key updates in place, so the map is an association list. -/
def updateUsage (stats : List ToolUsageStats) (toolName : String) (timeMs : Nat) :
    List ToolUsageStats :=
  if stats.any (fun s => s.toolName == toolName) then
    stats.map (fun s =>
      if s.toolName == toolName then
        { s with callCount := s.callCount + 1, totalTimeMs := s.totalTimeMs + timeMs }
      else s)
  else stats ++ [{ toolName := toolName, callCount := 1, totalTimeMs := timeMs }]

/-- The tool-result content of lines 176-183:
`success ? result || "Success" : `Error: ${error}``. -/
def toolResultContent (r : ToolExecutionResult) : String :=
  if r.success then
    match r.result with
    | some s => if s = "" then "Success" else s
    | none => "Success"
  else "Error: " ++ jsUndef r.error

/-- The per-block walk of lines 140-185: execute every `tool_use` block in
order, accumulating the tool-result blocks and the usage stats. -/
def execBlocks (exec : String → ToolInput → ToolExecutionResult)
    (stats : List ToolUsageStats) :
    List ContentBlock → List ContentBlock × List ToolUsageStats
  | [] => ([], stats)
  | b :: rest =>
    match b with
    | ContentBlock.toolUseB id name input =>
      let r := exec name input
      let stats' := updateUsage stats name r.executionTimeMs
      let (results, statsF) := execBlocks exec stats' rest
      (ContentBlock.toolResult id (toolResultContent r) (!r.success) :: results, statsF)
    | _ => execBlocks exec stats rest

/-- The mutable state of the `while` loop in `agenticReviewPR`. -/
structure LoopState where
  turnCount : Nat
  messages : List Message
  toolUsage : List ToolUsageStats
  warnings : List String
deriving Repr

/-- The warning of line 131. -/
def maxTokensWarning : String :=
  "⚠️  Warning: Response hit max tokens limit"

/-- The warning of lines 197-201. -/
def turnLimitWarning (maxTurns : Nat) : String :=
  "⚠️  Warning: Reached maximum turns (" ++ toString maxTurns ++ "). Review may be incomplete."

/-- The `while (turnCount < options.maxTurns)` loop of lines 101-195,
structurally recursive on the quantity `maxTurns - turnCount`, which the
loop's own guard and unconditional `turnCount++` make strictly decreasing;
`agenticLoop` below always supplies exactly that fuel, so the `0` cutoff is
never the exit taken while the guard holds. -/
def agenticLoopAux (model : List Message → ModelResponse)
    (exec : String → ToolInput → ToolExecutionResult) (maxTurns : Nat) :
    Nat → LoopState → LoopState
  | 0, st => st
  | fuel + 1, st =>
    if st.turnCount < maxTurns then
      let turnCount := st.turnCount + 1
      let response := model st.messages
      let messages := st.messages ++ [{ role := Role.assistant, content := response.content }]
      match response.stopReason with
      | StopReason.endTurn => { st with turnCount := turnCount, messages := messages }
      | StopReason.maxTokens =>
        { st with
          turnCount := turnCount
          messages := messages
          warnings := st.warnings ++ [maxTokensWarning] }
      | StopReason.toolUse =>
        let (toolResults, toolUsage) := execBlocks exec st.toolUsage response.content
        let messages' :=
          if toolResults.length > 0 then
            messages ++ [{ role := Role.user, content := toolResults }]
          else messages
        agenticLoopAux model exec maxTurns fuel
          { turnCount := turnCount
            messages := messages'
            toolUsage := toolUsage
            warnings := st.warnings }
      | StopReason.otherReason =>
        agenticLoopAux model exec maxTurns fuel
          { st with turnCount := turnCount, messages := messages }
    else st

/-- The loop entered from its initial state. -/
def agenticLoop (model : List Message → ModelResponse)
    (exec : String → ToolInput → ToolExecutionResult) (maxTurns : Nat)
    (st : LoopState) : LoopState :=
  agenticLoopAux model exec maxTurns (maxTurns - st.turnCount) st

/-- `reviewText` accumulation of lines 208-218: concatenate the text blocks. -/
def concatTextBlocks (blocks : List ContentBlock) : String :=
  blocks.foldl (fun acc b =>
    match b with
    | ContentBlock.text s => acc ++ s
    | _ => acc) ""

/-- The result record of `agenticReviewPR` (src/agentic/types.ts
`AgenticReviewResult`), with the emitted warnings collected alongside. -/
structure AgenticReviewResult where
  reviewText : String
  turnCount : Nat
  toolUsage : List ToolUsageStats
  messages : List Message
  warnings : List String
deriving Repr

/-- `agenticReviewPR` (lines 82-230): seed the conversation with the prompt,
run the turn loop, log the turn-limit warning when `turnCount >= maxTurns`,
then read the review text from the *last* message — only when that message
has the assistant role — falling back to a fixed apology string when no text
was obtained. -/
def agenticReviewPR (model : List Message → ModelResponse)
    (exec : String → ToolInput → ToolExecutionResult) (maxTurns : Nat)
    (initialPrompt : String) : AgenticReviewResult :=
  let init : LoopState :=
    { turnCount := 0,
      messages := [{ role := Role.user, content := [ContentBlock.text initialPrompt] }],
      toolUsage := [], warnings := [] }
  let final := agenticLoop model exec maxTurns init
  let warnings :=
    if final.turnCount ≥ maxTurns then final.warnings ++ [turnLimitWarning maxTurns]
    else final.warnings
  let reviewText :=
    match final.messages.getLast? with
    | some lastMessage =>
      match lastMessage.role with
      | Role.assistant => concatTextBlocks lastMessage.content
      | Role.user => ""
    | none => ""
  let reviewText :=
    if reviewText = "" then "Review could not be completed. Please try again."
    else reviewText
  { reviewText := reviewText, turnCount := final.turnCount,
    toolUsage := final.toolUsage, messages := final.messages, warnings := warnings }

/-! ### Spec-side definitions (for refinement comparison) and concrete instances -/

/-- The deduplication key as the specification words it: "(line, or the
literal `global` when absent)" joined with the normalized message — i.e. only
a *missing* line maps to `"global"`. Compared against the source's
`dedupKey`, which uses JS truthiness. -/
def specClaimKey (issue : Issue) : String :=
  (match issue.line with
   | some n => toString n
   | none => "global") ++ ":" ++ normalizeMessage issue.message

/-- First-occurrence filter over `specClaimKey`, as the claim describes the
deduplication. -/
def specClaimDedupGo (seen : List String) : List Issue → List Issue
  | [] => []
  | issue :: rest =>
    let key := specClaimKey issue
    if seen.contains key then specClaimDedupGo seen rest
    else issue :: specClaimDedupGo (key :: seen) rest

/-- Deduplication as the claim states it (spec-side definition). -/
def specClaimDedup (issues : List Issue) : List Issue :=
  specClaimDedupGo [] issues

/-- The text of the last assistant message of a transcript (what the claim
says the truncated-review extraction reads). -/
def lastAssistantText (messages : List Message) : String :=
  match (messages.filter (fun m => m.role == Role.assistant)).getLast? with
  | some m => concatTextBlocks m.content
  | none => ""

/-- An issue reported at line `0`. -/
def lineZeroIssue : Issue :=
  ⟨95, Severity.critical, some 0, none, "Trailing whitespace.", none⟩

/-- A file-level issue (no line) whose message normalizes identically. -/
def fileLevelIssue : Issue :=
  ⟨80, Severity.high, none, none, "trailing   WHITESPACE!!", none⟩

/-- First agent's line-42 SQL-injection finding (scenario input). -/
def sqlFirst : Issue :=
  ⟨95, Severity.critical, some 42, none, "SQL injection risk", none⟩

/-- Second agent's identical line-42 finding at lower confidence. -/
def sqlSecond : Issue :=
  ⟨80, Severity.high, some 42, none, "SQL injection risk", none⟩

/-- An issue with only a confidence and a message. -/
def plainIssue (c : Nat) (msg : String) : Issue :=
  ⟨c, Severity.low, none, none, msg, none⟩

/-- A review carrying the scenario confidences [95, 72, 65, 80]. -/
def aggDemoReview : AgenticAgentReview :=
  ⟨"Security", [plainIssue 95 "a", plainIssue 72 "b", plainIssue 65 "c", plainIssue 80 "d"],
    "", 1, [], [], ⟨0, 0, 0⟩⟩

/-- A concrete tool input. -/
def demoInput : ToolInput :=
  ⟨some "a.ts", none, none, none, none, none⟩

/-- A model stub that requests tool use on every turn (and also emits text). -/
def demoModel : List Message → ModelResponse := fun _ =>
  ⟨StopReason.toolUse,
    [ContentBlock.text "Partial analysis", ContentBlock.toolUseB "id1" "read_file" demoInput]⟩

/-- A tool-execution stub. -/
def demoExec : String → ToolInput → ToolExecutionResult := fun _ _ =>
  ⟨true, some "ok", none, 5⟩

/-- The agent loop run with `maxTurns = 3` against the always-tool-use
model. -/
def demoRun : AgenticReviewResult :=
  agenticReviewPR demoModel demoExec 3 "review this PR"

/-- A filesystem with no files. -/
def stubFs : FileSys :=
  ⟨fun _ => false, fun _ => 0, fun _ => ""⟩

/-- A tool environment whose subprocesses all succeed with empty output. -/
def stubEnv : ToolEnv :=
  ⟨"/repo", stubFs, fun _ => ⟨0, "", ""⟩, fun _ => ⟨0, "", ""⟩,
    fun _ => ⟨0, "", ""⟩, fun _ => ⟨0, "", ""⟩⟩

/-- 150 synthetic ripgrep match lines. -/
def rgCapLines : List String :=
  (List.range 150).map (fun i => "f.ts:" ++ toString (i + 1) ++ ":m")

/-- The corresponding raw ripgrep stdout. -/
def rgCapOut : String :=
  String.intercalate "\n" rgCapLines

/-- An environment whose ripgrep produces the 150 synthetic matches. -/
def rgCapEnv : ToolEnv :=
  { stubEnv with rg := fun _ => ⟨0, rgCapOut, ""⟩ }

/-- An environment whose ripgrep exits with status 1 ("no matches"). -/
def rgNoMatchEnv : ToolEnv :=
  { stubEnv with rg := fun _ => ⟨1, "", ""⟩ }

/-- An environment whose grep exits with status 1 ("no matches"). -/
def grepNoMatchEnv : ToolEnv :=
  { stubEnv with grep := fun _ => ⟨1, "", ""⟩ }

/-! ### Helper lemmas -/

theorem dedupGo_sublist (seen : List String) (l : List Issue) :
    List.Sublist (dedupGo seen l) l := by
  induction l generalizing seen with
  | nil => simp [dedupGo]
  | cons i rest ih =>
    simp only [dedupGo]
    split
    · exact List.Sublist.cons i (ih seen)
    · exact List.Sublist.cons₂ i (ih _)

theorem dedupGo_filter_key (k : String) (l : List Issue) : ∀ (seen : List String),
    (dedupGo seen l).filter (fun i => dedupKey i == k) =
      if seen.contains k then [] else (l.filter (fun i => dedupKey i == k)).take 1 := by
  induction l with
  | nil =>
    intro seen
    cases h : seen.contains k <;> simp [dedupGo, h]
  | cons i rest ih =>
    intro seen
    simp only [dedupGo]
    by_cases hseen : seen.contains (dedupKey i)
    · rw [if_pos hseen, ih seen]
      by_cases hk : seen.contains k
      · have hk' : k ∈ seen := by simpa using hk
        simp [hk']
      · have hik : ¬(dedupKey i = k) := fun h => hk (h ▸ hseen)
        rw [if_neg hk, if_neg hk, List.filter_cons_of_neg]
        simpa using hik
    · rw [if_neg hseen]
      by_cases hik : dedupKey i = k
      · have hkseen : ¬(seen.contains k) := fun h => hseen (hik ▸ h)
        rw [List.filter_cons_of_pos (by simpa using hik), ih (dedupKey i :: seen)]
        rw [if_pos (by simp [hik]), if_neg hkseen,
          List.filter_cons_of_pos (by simpa using hik)]
        simp
      · rw [List.filter_cons_of_neg (by simpa using hik), ih (dedupKey i :: seen)]
        have : (dedupKey i :: seen).contains k = seen.contains k := by
          simp [List.contains_cons]
          intro h
          exact absurd h.symm hik
        rw [this, List.filter_cons_of_neg (by simpa using hik)]

theorem insertByConf_decomp (x : Issue) (l : List Issue) :
    ∃ l1 l2, l = l1 ++ l2 ∧ insertByConf x l = l1 ++ x :: l2 ∧
      ∀ j ∈ l1, x.confidence < j.confidence := by
  induction l with
  | nil => exact ⟨[], [], rfl, rfl, by simp⟩
  | cons j rest ih =>
    by_cases h : j.confidence ≤ x.confidence
    · exact ⟨[], j :: rest, rfl, by simp [insertByConf, h], by simp⟩
    · obtain ⟨l1, l2, he, hi, hlt⟩ := ih
      refine ⟨j :: l1, l2, by simp [← he], ?_, ?_⟩
      · simp [insertByConf, h, hi]
      · intro a ha
        rcases List.mem_cons.mp ha with rfl | ha
        · omega
        · exact hlt a ha

theorem filter_conf_insertByConf (c : Nat) (x : Issue) (l : List Issue) :
    (insertByConf x l).filter (fun i => i.confidence == c) =
      if x.confidence = c then x :: l.filter (fun i => i.confidence == c)
      else l.filter (fun i => i.confidence == c) := by
  obtain ⟨l1, l2, he, hi, hlt⟩ := insertByConf_decomp x l
  subst he
  rw [hi, List.filter_append, List.filter_append]
  by_cases hx : x.confidence = c
  · have hl1 : l1.filter (fun i => i.confidence == c) = [] := by
      rw [List.filter_eq_nil_iff]
      intro j hj
      have := hlt j hj
      simp only [beq_iff_eq]
      omega
    rw [if_pos hx, hl1, List.filter_cons_of_pos (by simpa using hx)]
    simp
  · rw [if_neg hx, List.filter_cons_of_neg (by simpa using hx)]

theorem sortByConfDesc_filter_conf (c : Nat) (l : List Issue) :
    (sortByConfDesc l).filter (fun i => i.confidence == c) =
      l.filter (fun i => i.confidence == c) := by
  induction l with
  | nil => rfl
  | cons x xs ih =>
    show (insertByConf x (sortByConfDesc xs)).filter _ = _
    rw [filter_conf_insertByConf, ih]
    by_cases hx : x.confidence = c
    · rw [if_pos hx, List.filter_cons_of_pos (by simpa using hx)]
    · rw [if_neg hx, List.filter_cons_of_neg (by simpa using hx)]

theorem chain'_insertByConf (x : Issue) :
    ∀ (l : List Issue), List.Chain' (fun a b => b.confidence ≤ a.confidence) l →
      List.Chain' (fun a b => b.confidence ≤ a.confidence) (insertByConf x l) := by
  intro l
  induction l with
  | nil => intro _; simp [insertByConf]
  | cons j rest ih =>
    intro hc
    rw [List.chain'_cons'] at hc
    simp only [insertByConf]
    by_cases h : j.confidence ≤ x.confidence
    · rw [if_pos h]
      exact List.chain'_cons'.mpr ⟨by simpa using h, List.chain'_cons'.mpr hc⟩
    · rw [if_neg h]
      refine List.chain'_cons'.mpr ⟨?_, ih hc.2⟩
      intro y hy
      cases rest with
      | nil =>
        simp [insertByConf] at hy
        subst hy
        omega
      | cons r rs =>
        simp only [insertByConf] at hy
        by_cases hr : r.confidence ≤ x.confidence
        · rw [if_pos hr] at hy
          simp only [List.head?_cons, Option.mem_def, Option.some.injEq] at hy
          subst hy
          omega
        · rw [if_neg hr] at hy
          simp only [List.head?_cons, Option.mem_def, Option.some.injEq] at hy
          subst hy
          exact hc.1 r (by simp)

theorem sortByConfDesc_sorted (l : List Issue) :
    List.Chain' (fun a b => b.confidence ≤ a.confidence) (sortByConfDesc l) := by
  induction l with
  | nil => simp [sortByConfDesc]
  | cons x xs ih => exact chain'_insertByConf x _ ih

theorem runAgentsSeqGo_eq {α : Type} (reviewAgent : α → AgenticAgentReview) :
    ∀ (agents : List α) (acc : List AgenticAgentReview),
      runAgentsSeqGo reviewAgent acc agents = acc ++ agents.map reviewAgent := by
  intro agents
  induction agents with
  | nil => intro acc; simp [runAgentsSeqGo]
  | cons a rest ih =>
    intro acc
    simp [runAgentsSeqGo, ih]

theorem startsList_append (n t : List Char) : startsList n (n ++ t) = true := by
  induction n with
  | nil => simp [startsList]
  | cons a as ih => simp [startsList, ih]

theorem hasSub_of_decomp (n post : List Char) : ∀ (pre : List Char),
    hasSub n (pre ++ n ++ post) = true := by
  intro pre
  induction pre with
  | nil =>
    cases n with
    | nil =>
      cases post with
      | nil => rfl
      | cons c cs => simp [hasSub, startsList]
    | cons a as =>
      simp only [List.nil_append, List.cons_append, hasSub]
      rw [Bool.or_eq_true]
      left
      exact startsList_append (a :: as) post
  | cons p ps ih =>
    simp only [List.cons_append, hasSub]
    rw [Bool.or_eq_true]
    right
    exact ih

theorem splitSlash_ne_nil (l : List Char) : splitSlash l ≠ [] := by
  cases l with
  | nil => simp [splitSlash]
  | cons c cs =>
    simp only [splitSlash]
    split
    · simp
    · split <;> simp

theorem splitSlash_main : ∀ (l : List Char),
    (∃ t, l = (splitSlash l).headI ++ t) ∧
    (∀ seg ∈ splitSlash l, ∃ pre post, l = pre ++ seg ++ post) := by
  intro l
  induction l with
  | nil =>
    refine ⟨⟨[], rfl⟩, ?_⟩
    intro seg hseg
    simp [splitSlash] at hseg
    exact ⟨[], [], by simp [hseg]⟩
  | cons c cs ih =>
    by_cases hc : c = '/'
    · have he : splitSlash (c :: cs) = [] :: splitSlash cs := by
        simp [splitSlash, hc]
      refine ⟨⟨c :: cs, by simp [he]⟩, ?_⟩
      intro seg hseg
      rw [he] at hseg
      rcases List.mem_cons.mp hseg with rfl | hseg
      · exact ⟨[], c :: cs, by simp⟩
      · obtain ⟨pre, post, hdec⟩ := ih.2 seg hseg
        exact ⟨c :: pre, post, by simp [hdec]⟩
    · rcases hs : splitSlash cs with _ | ⟨s, rest⟩
      · exact absurd hs (splitSlash_ne_nil cs)
      · have he : splitSlash (c :: cs) = (c :: s) :: rest := by
          simp only [splitSlash, hs]
          rw [if_neg hc]
        obtain ⟨t, ht⟩ := ih.1
        rw [hs] at ht
        simp only [List.headI] at ht
        refine ⟨⟨t, by rw [he]; simp [List.headI, ht]⟩, ?_⟩
        intro seg hseg
        rw [he] at hseg
        rcases List.mem_cons.mp hseg with rfl | hseg
        · exact ⟨[], t, by simp [ht]⟩
        · have : seg ∈ splitSlash cs := by rw [hs]; exact List.mem_cons_of_mem s hseg
          obtain ⟨pre, post, hdec⟩ := ih.2 seg this
          exact ⟨c :: pre, post, by simp [hdec]⟩

theorem strHasSub_of_parentSeg (s : String) (h : hasParentSeg s = true) :
    strHasSub s ".." = true := by
  have hmem : ['.', '.'] ∈ splitSlash s.toList := by
    simpa [hasParentSeg] using h
  obtain ⟨pre, post, hdec⟩ := (splitSlash_main s.toList).2 _ hmem
  have : hasSub ['.', '.'] s.toList = true := by
    rw [hdec]
    exact hasSub_of_decomp ['.', '.'] post pre
  simpa [strHasSub] using this

theorem validatePath_error_cases (p : String)
    (h : jsIsAbsolute p = true ∨ hasParentSeg (pathNormalize p) = true) :
    (jsIsAbsolute p = true ∧ validatePath p = Except.error "Absolute paths are not allowed") ∨
    validatePath p = Except.error "Directory traversal is not allowed" := by
  by_cases habs : jsIsAbsolute p = true
  · left
    exact ⟨habs, by simp [validatePath, habs]⟩
  · right
    rcases h with h | h
    · exact absurd h habs
    · have hsub := strHasSub_of_parentSeg _ h
      simp [validatePath, habs, hsub]

theorem execBlocks_ne_nil (exec : String → ToolInput → ToolExecutionResult)
    (blocks : List ContentBlock)
    (h : ∃ id name input, ContentBlock.toolUseB id name input ∈ blocks) :
    ∀ stats, (execBlocks exec stats blocks).1 ≠ [] := by
  induction blocks with
  | nil =>
    obtain ⟨_, _, _, hmem⟩ := h
    exact absurd hmem (by simp)
  | cons b rest ih =>
    intro stats
    cases b with
    | toolUseB id name input => simp [execBlocks]
    | text s =>
      obtain ⟨id, nm, inp, hmem⟩ := h
      rcases List.mem_cons.mp hmem with heq | hmem
      · exact absurd heq (by simp)
      · exact ih ⟨id, nm, inp, hmem⟩ stats
    | toolResult tid ct ie =>
      obtain ⟨id, nm, inp, hmem⟩ := h
      rcases List.mem_cons.mp hmem with heq | hmem
      · exact absurd heq (by simp)
      · exact ih ⟨id, nm, inp, hmem⟩ stats

theorem agenticLoopAux_stopped (model : List Message → ModelResponse)
    (exec : String → ToolInput → ToolExecutionResult) (maxTurns : Nat)
    (fuel : Nat) (st : LoopState) (h : ¬(st.turnCount < maxTurns)) :
    agenticLoopAux model exec maxTurns fuel st = st := by
  cases fuel with
  | zero => rfl
  | succ n => simp [agenticLoopAux, h]

theorem agenticLoopAux_always_toolUse (model : List Message → ModelResponse)
    (exec : String → ToolInput → ToolExecutionResult) (maxTurns : Nat)
    (hstop : ∀ msgs, (model msgs).stopReason = StopReason.toolUse)
    (htool : ∀ msgs, ∃ id name input, ContentBlock.toolUseB id name input ∈ (model msgs).content) :
    ∀ (fuel : Nat) (st : LoopState), fuel = maxTurns - st.turnCount →
      st.turnCount < maxTurns →
      (agenticLoopAux model exec maxTurns fuel st).turnCount = maxTurns ∧
      (agenticLoopAux model exec maxTurns fuel st).warnings = st.warnings ∧
      (∃ blocks, blocks ≠ [] ∧
        (agenticLoopAux model exec maxTurns fuel st).messages.getLast? =
          some { role := Role.user, content := blocks }) := by
  intro fuel
  induction fuel with
  | zero => intro st hfuel hlt; omega
  | succ n ih =>
    intro st hfuel hlt
    have hresults : (execBlocks exec st.toolUsage (model st.messages).content).1 ≠ [] :=
      execBlocks_ne_nil exec _ (htool st.messages) _
    have hlen : 0 < (execBlocks exec st.toolUsage (model st.messages).content).1.length :=
      List.length_pos.mpr hresults
    set results := (execBlocks exec st.toolUsage (model st.messages).content).1 with hres
    set st' : LoopState :=
      { turnCount := st.turnCount + 1
        messages :=
          (st.messages ++ [{ role := Role.assistant, content := (model st.messages).content }]) ++
            [{ role := Role.user, content := results }]
        toolUsage := (execBlocks exec st.toolUsage (model st.messages).content).2
        warnings := st.warnings } with hst'
    have hstep : agenticLoopAux model exec maxTurns (n + 1) st =
        agenticLoopAux model exec maxTurns n st' := by
      simp only [agenticLoopAux, if_pos hlt, hstop st.messages]
      rw [hst']
      simp only [hres]
      rw [if_pos (by simpa using hlen)]
    rw [hstep]
    by_cases hlt' : st'.turnCount < maxTurns
    · have := ih st' (by simp [hst']; omega) hlt'
      simpa [hst'] using this
    · have hn : st'.turnCount = maxTurns := by simp [hst'] at hlt' ⊢; omega
      rw [agenticLoopAux_stopped model exec maxTurns n st' (by omega)]
      refine ⟨hn, by simp [hst'], results, hresults, ?_⟩
      simp [hst']

/-! ### Claim theorems -/

/-- Claim C4: for every issue produced by `parseIssues`, severity is exactly
the confidence bucket: critical ⟺ confidence ≥ 90, high ⟺ 80-89,
medium ⟺ 70-79, low ⟺ < 70; severity is never set independently of the
parsed confidence. -/
theorem severity_pure_function_of_confidence :
    ∀ (ms : List RegexMatch) (i : Issue), i ∈ parseIssues ms →
      (i.severity = Severity.critical ↔ 90 ≤ i.confidence) ∧
      (i.severity = Severity.high ↔ 80 ≤ i.confidence ∧ i.confidence ≤ 89) ∧
      (i.severity = Severity.medium ↔ 70 ≤ i.confidence ∧ i.confidence ≤ 79) ∧
      (i.severity = Severity.low ↔ i.confidence < 70) := by
  intro ms i hi
  obtain ⟨m, _, rfl⟩ := List.mem_map.mp hi
  simp only [processIssueMatch]
  split_ifs with h1 h2 h3 <;>
    refine ⟨?_, ?_, ?_, ?_⟩ <;> simp_all <;> omega

/-- Claim C4 witness: a concrete match with confidence 85 parses to a high
severity issue satisfying all four bucket equivalences. -/
theorem severity_pure_function_of_confidence_witness :
    (processIssueMatch ⟨"85", some "12", none, some " Issue text "⟩ ∈
      parseIssues [⟨"85", some "12", none, some " Issue text "⟩]) ∧
    ((processIssueMatch ⟨"85", some "12", none, some " Issue text "⟩).severity =
      Severity.high ↔
      80 ≤ (processIssueMatch ⟨"85", some "12", none, some " Issue text "⟩).confidence ∧
        (processIssueMatch ⟨"85", some "12", none, some " Issue text "⟩).confidence ≤ 89) :=
  ⟨by simp [parseIssues],
    (severity_pure_function_of_confidence [⟨"85", some "12", none, some " Issue text "⟩]
      _ (by simp [parseIssues])).2.1⟩

/-- Claim C3: with a fixed agent list and a deterministic review function,
the parallel and sequential modes of `multiAgenticReview` produce identical
results — the same reviews in input-list order and the identical aggregated
issue list (timing, which the model omits, is the only sanctioned
difference). -/
theorem parallel_sequential_equivalence :
    ∀ {α : Type} (agents : List α) (reviewAgent : α → AgenticAgentReview)
      (minConfidence : Nat),
      multiAgenticReview true agents reviewAgent minConfidence =
        multiAgenticReview false agents reviewAgent minConfidence ∧
      (multiAgenticReview true agents reviewAgent minConfidence).agentReviews =
        agents.map reviewAgent := by
  intro α agents reviewAgent minConfidence
  have hseq : runAgentsSequential agents reviewAgent = agents.map reviewAgent := by
    simp [runAgentsSequential, runAgentsSeqGo_eq]
  exact ⟨by simp [multiAgenticReview, runAgentsParallel, hseq],
    by simp [multiAgenticReview, runAgentsParallel]⟩

/-- Claim C10: the dedup key is computed with JS truthiness
(`issue.line || "global"`), so an issue at line 0 is keyed `"global"` and
collapses with a file-level issue carrying the same normalized message; only
the first of the pair (in flattened order) survives deduplication. -/
theorem line_zero_keyed_global :
    ∀ (a b : Issue), a.line = some 0 → b.line = none →
      normalizeMessage a.message = normalizeMessage b.message →
      dedupKey a = dedupKey b ∧
      deduplicateIssues [a, b] = [a] ∧ deduplicateIssues [b, a] = [b] := by
  intro a b ha hb hmsg
  have hkey : dedupKey a = dedupKey b := by
    simp [dedupKey, ha, hb, hmsg]
  refine ⟨hkey, ?_, ?_⟩
  · simp [deduplicateIssues, dedupGo, hkey]
  · simp [deduplicateIssues, dedupGo, hkey]

/-- Claim C10 witness: the concrete line-0 issue collapses with the
file-level issue whose message normalizes identically. -/
theorem line_zero_keyed_global_witness :
    dedupKey lineZeroIssue = dedupKey fileLevelIssue ∧
    deduplicateIssues [lineZeroIssue, fileLevelIssue] = [lineZeroIssue] ∧
    deduplicateIssues [fileLevelIssue, lineZeroIssue] = [fileLevelIssue] :=
  line_zero_keyed_global lineZeroIssue fileLevelIssue (by decide) (by decide) (by decide)

/-- Claim C5 counterexample: the claim says the key's line component is the
line whenever present ("global" only when absent), but the source computes it
with JS truthiness, so an issue at line 0 and a file-level issue with the
same normalized message share a key: the source keeps one, the claimed key
function keeps both. -/
theorem dedup_key_line_zero_counterexample :
    deduplicateIssues [lineZeroIssue, fileLevelIssue] = [lineZeroIssue] ∧
    specClaimDedup [lineZeroIssue, fileLevelIssue] = [lineZeroIssue, fileLevelIssue] ∧
    deduplicateIssues [lineZeroIssue, fileLevelIssue] ≠
      specClaimDedup [lineZeroIssue, fileLevelIssue] := by
  refine ⟨by decide, by decide, by decide⟩

/-- Claim C5 (amended): deduplication keys each issue by the line — when
present *and nonzero* (JS truthiness; line 0 and a missing line both key as
the literal `"global"`) — joined with the normalized message (lower-cased,
non-alphanumerics stripped, whitespace collapsed, truncated to 100
characters), and keeps exactly the first occurrence of each key in original
order; in the line-42 "SQL injection risk" scenario with confidences 95 and
80, whichever agent's issue is first in the flattened list survives, and the
count after dedup is 1. -/
theorem dedup_first_occurrence_behavior :
    (∀ (l : List Issue), List.Sublist (deduplicateIssues l) l) ∧
    (∀ (l : List Issue) (k : String),
      (deduplicateIssues l).filter (fun i => dedupKey i == k) =
        (l.filter (fun i => dedupKey i == k)).take 1) ∧
    deduplicateIssues [sqlFirst, sqlSecond] = [sqlFirst] ∧
    (deduplicateIssues [sqlFirst, sqlSecond]).length = 1 ∧
    deduplicateIssues [sqlSecond, sqlFirst] = [sqlSecond] := by
  refine ⟨fun l => dedupGo_sublist [] l, fun l k => ?_, by decide, by decide, by decide⟩
  have h := dedupGo_filter_key k l []
  simpa [deduplicateIssues] using h

/-- Claim C8: aggregation removes exactly the issues below `minConfidence`
(equality is kept), and the surviving deduplicated issues come out sorted
descending by confidence with equal-confidence issues keeping their prior
relative order; the [95, 72, 65, 80] scenario at threshold 70 yields
[95, 80, 72]. -/
theorem aggregation_filter_sort :
    (∀ (minConfidence : Nat) (issues : List Issue) (i : Issue),
      i ∈ filterByConfidence minConfidence issues ↔
        i ∈ issues ∧ minConfidence ≤ i.confidence) ∧
    (∀ (reviews : List AgenticAgentReview) (minConfidence : Nat),
      List.Chain' (fun a b => b.confidence ≤ a.confidence)
        (aggregateIssues reviews minConfidence)) ∧
    (∀ (l : List Issue) (c : Nat),
      (sortByConfDesc l).filter (fun i => i.confidence == c) =
        l.filter (fun i => i.confidence == c)) ∧
    (aggregateIssues [aggDemoReview] 70).map Issue.confidence = [95, 80, 72] := by
  refine ⟨?_, ?_, fun l c => sortByConfDesc_filter_conf c l, by decide⟩
  · intro m issues i
    simp [filterByConfidence, List.mem_filter]
  · intro reviews m
    exact sortByConfDesc_sorted _

/-- Claim C1: for every absolute input path, and every path whose normalized
form contains a parent-directory (`..`) segment, `read_file` fails with a
path-validation error and performs no filesystem access at all (in
particular for `"../secret"` and `"/etc/passwd"`). -/
theorem read_file_rejects_unsafe_paths :
    (∀ (fs : FileSys) (repoPath p : String),
      jsIsAbsolute p = true ∨ hasParentSeg (pathNormalize p) = true →
        ((readFile fs repoPath p).1 = Except.error "Absolute paths are not allowed" ∨
          (readFile fs repoPath p).1 = Except.error "Directory traversal is not allowed") ∧
        (readFile fs repoPath p).2 = []) ∧
    (∀ (fs : FileSys) (repoPath : String),
      readFile fs repoPath "../secret" =
        (Except.error "Directory traversal is not allowed", [])) ∧
    (∀ (fs : FileSys) (repoPath : String),
      readFile fs repoPath "/etc/passwd" =
        (Except.error "Absolute paths are not allowed", [])) ∧
    (∀ (env : ToolEnv) (input : ToolInput) (startTime endTime : Nat) (p : String),
      input.path = some p →
      jsIsAbsolute p = true ∨ hasParentSeg (pathNormalize p) = true →
        (executeTool env "read_file" input startTime endTime).success = false ∧
        ((executeTool env "read_file" input startTime endTime).error =
            some "Absolute paths are not allowed" ∨
          (executeTool env "read_file" input startTime endTime).error =
            some "Directory traversal is not allowed")) := by
  have hmain : ∀ (fs : FileSys) (repoPath p : String),
      jsIsAbsolute p = true ∨ hasParentSeg (pathNormalize p) = true →
        ((readFile fs repoPath p).1 = Except.error "Absolute paths are not allowed" ∨
          (readFile fs repoPath p).1 = Except.error "Directory traversal is not allowed") ∧
        (readFile fs repoPath p).2 = [] := by
    intro fs repoPath p h
    rcases validatePath_error_cases p h with ⟨_, hv⟩ | hv
    · exact ⟨Or.inl (by simp [readFile, hv]), by simp [readFile, hv]⟩
    · exact ⟨Or.inr (by simp [readFile, hv]), by simp [readFile, hv]⟩
  refine ⟨hmain, ?_, ?_, ?_⟩
  · intro fs repoPath
    have hv : validatePath "../secret" = Except.error "Directory traversal is not allowed" := rfl
    simp [readFile, hv]
  · intro fs repoPath
    have hv : validatePath "/etc/passwd" = Except.error "Absolute paths are not allowed" := rfl
    simp [readFile, hv]
  · intro env input t1 t2 p hp h
    rcases (hmain env.fs env.repoPath p h).1 with he | he
    · exact ⟨by simp [executeTool, hp, he], Or.inl (by simp [executeTool, hp, he])⟩
    · exact ⟨by simp [executeTool, hp, he], Or.inr (by simp [executeTool, hp, he])⟩

/-- Claim C1 witness: the general rejection applied at the two concrete
paths of the claim, over the stub filesystem. -/
theorem read_file_rejects_unsafe_paths_witness :
    ((readFile stubFs "/repo" "/etc/passwd").1 =
        Except.error "Absolute paths are not allowed" ∨
      (readFile stubFs "/repo" "/etc/passwd").1 =
        Except.error "Directory traversal is not allowed") ∧
    (readFile stubFs "/repo" "/etc/passwd").2 = [] ∧
    ((readFile stubFs "/repo" "../secret").1 =
        Except.error "Absolute paths are not allowed" ∨
      (readFile stubFs "/repo" "../secret").1 =
        Except.error "Directory traversal is not allowed") ∧
    (readFile stubFs "/repo" "../secret").2 = [] ∧
    (executeTool stubEnv "read_file" ⟨some "/etc/passwd", none, none, none, none, none⟩
      100 120).success = false := by
  have h1 := read_file_rejects_unsafe_paths.1 stubFs "/repo" "/etc/passwd" (Or.inl rfl)
  have h2 := read_file_rejects_unsafe_paths.1 stubFs "/repo" "../secret" (Or.inr (by decide))
  have h3 := read_file_rejects_unsafe_paths.2.2.2 stubEnv
    ⟨some "/etc/passwd", none, none, none, none, none⟩ 100 120 "/etc/passwd" rfl
    (Or.inl rfl)
  exact ⟨h1.1, h1.2, h2.1, h2.2, h3.1⟩

/-- Claim C9: path validation rejects any relative path whose normalized
form merely *contains* the substring `".."` — not only parent-directory
segments — so `read_file` and `get_git_history` fail with "Directory
traversal is not allowed" even for the in-repository filename
`"notes..md"`, which has no parent-directory segment. -/
theorem traversal_rejects_substring_dotdot :
    (∀ (p : String), jsIsAbsolute p = false →
      strHasSub (pathNormalize p) ".." = true →
        validatePath p = Except.error "Directory traversal is not allowed") ∧
    (jsIsAbsolute "notes..md" = false ∧
      hasParentSeg (pathNormalize "notes..md") = false ∧
      strHasSub (pathNormalize "notes..md") ".." = true) ∧
    (∀ (fs : FileSys) (repoPath : String),
      readFile fs repoPath "notes..md" =
        (Except.error "Directory traversal is not allowed", [])) ∧
    (∀ (env : ToolEnv) (lim : Nat),
      getGitHistory env (some "notes..md") lim =
        Except.error "Directory traversal is not allowed") := by
  refine ⟨?_, ⟨rfl, by decide, by decide⟩, ?_, ?_⟩
  · intro p habs hsub
    simp [validatePath, habs, hsub]
  · intro fs repoPath
    have hv : validatePath "notes..md" = Except.error "Directory traversal is not allowed" := rfl
    simp [readFile, hv]
  · intro env lim
    have hv : validatePath "notes..md" = Except.error "Directory traversal is not allowed" := rfl
    simp [getGitHistory, hv]

/-- Claim C9 witness: the substring rejection applied at the relative path
`"../x"`, and the two concrete tool failures for `"notes..md"`. -/
theorem traversal_rejects_substring_dotdot_witness :
    validatePath "../x" = Except.error "Directory traversal is not allowed" ∧
    readFile stubFs "/repo" "notes..md" =
      (Except.error "Directory traversal is not allowed", []) ∧
    getGitHistory stubEnv (some "notes..md") 10 =
      Except.error "Directory traversal is not allowed" :=
  ⟨traversal_rejects_substring_dotdot.1 "../x" rfl (by decide),
    traversal_rejects_substring_dotdot.2.2.1 stubFs "/repo",
    traversal_rejects_substring_dotdot.2.2.2 stubEnv 10⟩

/-- Claim C6: `executeTool` always returns a `ToolExecutionResult` — every
failure is encoded as `success := false` with an error string, an unknown
tool name yields exactly the `"Unknown tool: <name>"` failure, and
`executionTimeMs` is stamped on the success and the failure branch alike. -/
theorem execute_tool_total_and_timed :
    ∀ (env : ToolEnv) (name : String) (input : ToolInput) (startTime endTime : Nat),
      (executeTool env name input startTime endTime).executionTimeMs =
        endTime - startTime ∧
      ((executeTool env name input startTime endTime).success = false →
        (executeTool env name input startTime endTime).error ≠ none) ∧
      ((executeTool env name input startTime endTime).success = true →
        (executeTool env name input startTime endTime).result ≠ none) ∧
      (name ∉ knownToolNames →
        executeTool env name input startTime endTime =
          { success := false, result := none,
            error := some ("Unknown tool: " ++ name),
            executionTimeMs := endTime - startTime }) := by
  intro env name input t1 t2
  refine ⟨?_, ?_, ?_, ?_⟩
  · simp only [executeTool]
    split <;> rfl
  · simp only [executeTool]
    split <;> simp
  · simp only [executeTool]
    split <;> simp
  · intro hname
    have h1 : ¬(name = "read_file") := fun h => hname (by simp [knownToolNames, h])
    have h2 : ¬(name = "search_code") := fun h => hname (by simp [knownToolNames, h])
    have h3 : ¬(name = "get_git_history") := fun h => hname (by simp [knownToolNames, h])
    have h4 : ¬(name = "find_symbol_definition") := fun h => hname (by simp [knownToolNames, h])
    have h5 : ¬(name = "find_usages") := fun h => hname (by simp [knownToolNames, h])
    simp only [executeTool]

/-- Claim C6 witness: the unknown tool name `"frobnicate"` over the stub
environment, timed from 100 to 120. -/
theorem execute_tool_total_and_timed_witness :
    "frobnicate" ∉ knownToolNames ∧
    executeTool stubEnv "frobnicate" demoInput 100 120 =
      { success := false, result := none,
        error := some "Unknown tool: frobnicate", executionTimeMs := 20 } := by
  have hmem : "frobnicate" ∉ knownToolNames := by simp [knownToolNames]
  have h := (execute_tool_total_and_timed stubEnv "frobnicate" demoInput 100 120).2.2.2 hmem
  exact ⟨hmem, h.trans (by rfl)⟩

/-- Claim C7: when a search subprocess succeeds with more than 100 non-empty
output lines, the returned text is exactly the first 100 of those lines plus
a trailer naming how many more matches were omitted; and the "no matches"
exit status (1) yields the non-error result "No matches found." — in both
the ripgrep path and the grep fallback. -/
theorem search_cap_and_no_matches :
    (∀ (env : ToolEnv) (pat : String) (fp : Option String)
        (proc : ProcOut) (lines : List String),
      proc = env.rg (["-n", "-i", pat] ++ (match fp with
        | some f => ["-g", f]
        | none => [])) →
      lines = (jsSplitNl proc.stdout).filter (fun l => jsTrim l != "") →
      (proc.exitCode = 0 → lines.length > MAX_SEARCH_LINES →
        searchWithRipgrep env pat fp =
          Except.ok (String.intercalate "\n" (lines.take MAX_SEARCH_LINES) ++
            "\n\n... (" ++ toString (lines.length - MAX_SEARCH_LINES) ++
            " more matches omitted. Refine your search pattern.)")) ∧
      (proc.exitCode = 1 → searchWithRipgrep env pat fp = Except.ok "No matches found.")) ∧
    (∀ (env : ToolEnv) (pat : String) (proc : ProcOut) (lines : List String),
      proc = env.grep (["-r", "-n", "-i", "-E", pat] ++ ["."]) →
      lines = (jsSplitNl proc.stdout).filter (fun l => jsTrim l != "") →
      (proc.exitCode = 0 → lines.length > MAX_SEARCH_LINES →
        searchWithGrep env pat none =
          String.intercalate "\n" (lines.take MAX_SEARCH_LINES) ++
            "\n\n... (" ++ toString (lines.length - MAX_SEARCH_LINES) ++
            " more matches omitted. Refine your search pattern.)") ∧
      (proc.exitCode = 1 → searchWithGrep env pat none = "No matches found.")) := by
  constructor
  · intro env pat fp proc lines hproc hlines
    subst hproc
    subst hlines
    constructor
    · intro h0 hcap
      simp only [List.cons_append, List.nil_append] at h0 hcap
      simp [searchWithRipgrep, h0, hcap]
    · intro h1
      simp only [List.cons_append, List.nil_append] at h1
      simp [searchWithRipgrep, h1]
  · intro env pat proc lines hproc hlines
    subst hproc
    subst hlines
    constructor
    · intro h0 hcap
      simp only [List.cons_append, List.nil_append] at h0 hcap
      simp [searchWithGrep, h0, hcap]
    · intro h1
      simp only [List.cons_append, List.nil_append] at h1
      simp [searchWithGrep, h1]

set_option maxRecDepth 100000 in
/-- Claim C7 witness: 150 synthetic matches produce the first 100 lines plus
a "50 more matches omitted" trailer, and exit status 1 produces
"No matches found." on both paths. -/
theorem search_cap_and_no_matches_witness :
    searchWithRipgrep rgCapEnv "x" none =
      Except.ok (String.intercalate "\n"
          (((jsSplitNl (rgCapEnv.rg (["-n", "-i", "x"] ++ [])).stdout).filter
            (fun l => jsTrim l != "")).take MAX_SEARCH_LINES) ++
        "\n\n... (" ++
        toString (((jsSplitNl (rgCapEnv.rg (["-n", "-i", "x"] ++ [])).stdout).filter
            (fun l => jsTrim l != "")).length - MAX_SEARCH_LINES) ++
        " more matches omitted. Refine your search pattern.)") ∧
    searchWithRipgrep rgNoMatchEnv "x" none = Except.ok "No matches found." ∧
    searchWithGrep grepNoMatchEnv "x" none = "No matches found." := by
  have hcap : ((jsSplitNl (rgCapEnv.rg (["-n", "-i", "x"] ++ [])).stdout).filter
      (fun l => jsTrim l != "")).length > MAX_SEARCH_LINES := by decide
  refine ⟨?_, ?_, ?_⟩
  · exact ((search_cap_and_no_matches.1 rgCapEnv "x" none _ _ rfl rfl).1 rfl hcap)
  · exact ((search_cap_and_no_matches.1 rgNoMatchEnv "x" none _ _ rfl rfl).2 rfl)
  · exact ((search_cap_and_no_matches.2 grepNoMatchEnv "x" _ _ rfl rfl).2 rfl)

/-- Claim C2 counterexample: with `maxTurns = 3` and a model that requests
tool use on every turn (while also emitting text), the loop does terminate
after exactly 3 turns — but the review is *not* extracted from the last
assistant message: the transcript ends with the tool-result user message, so
the extraction finds no text and returns the fixed fallback string instead
of the assistant's "Partial analysis". -/
theorem agent_loop_turn_limit_counterexample :
    demoRun.turnCount = 3 ∧
    lastAssistantText demoRun.messages = "Partial analysis" ∧
    demoRun.reviewText = "Review could not be completed. Please try again." ∧
    demoRun.reviewText ≠ lastAssistantText demoRun.messages := by
  refine ⟨rfl, rfl, rfl, by decide⟩

/-- Claim C2 (amended): for every `maxTurns ≥ 1` the agent loop terminates —
the turn counter is incremented once per iteration and the loop exits once
`turn ≥ maxTurns` — so with a model that requests tool use on every turn the
loop runs exactly `maxTurns` turns and logs the turn-limit warning; the
transcript then ends with the tool-result user message, so the final
extraction (which reads only the very last message) finds no assistant text
and the returned review text is the fallback "Review could not be completed.
Please try again." rather than text taken from the last assistant message. -/
theorem agent_loop_turn_limit_behavior :
    ∀ (model : List Message → ModelResponse)
      (exec : String → ToolInput → ToolExecutionResult)
      (maxTurns : Nat) (initialPrompt : String),
      1 ≤ maxTurns →
      (∀ msgs, (model msgs).stopReason = StopReason.toolUse) →
      (∀ msgs, ∃ id name input, ContentBlock.toolUseB id name input ∈ (model msgs).content) →
      (agenticReviewPR model exec maxTurns initialPrompt).turnCount = maxTurns ∧
      turnLimitWarning maxTurns ∈ (agenticReviewPR model exec maxTurns initialPrompt).warnings ∧
      (∃ m, (agenticReviewPR model exec maxTurns initialPrompt).messages.getLast? = some m ∧
        m.role = Role.user) ∧
      (agenticReviewPR model exec maxTurns initialPrompt).reviewText =
        "Review could not be completed. Please try again." := by
  intro model exec maxTurns initialPrompt hmax hstop htool
  obtain ⟨hturn, hwarn, blocks, hblocks, hlast⟩ :=
    agenticLoopAux_always_toolUse model exec maxTurns hstop htool
      (maxTurns - 0)
      { turnCount := 0,
        messages := [{ role := Role.user, content := [ContentBlock.text initialPrompt] }],
        toolUsage := [], warnings := [] }
      rfl (by show 0 < maxTurns; omega)
  simp only [agenticReviewPR, agenticLoop]
  refine ⟨hturn, ?_, ?_, ?_⟩
  · rw [hturn, hwarn]
    simp
  · exact ⟨_, hlast, rfl⟩
  · rw [hlast]
    simp

/-- Claim C2 witness: the amended loop behavior at `maxTurns = 3` with the
concrete always-tool-use model. -/
theorem agent_loop_turn_limit_behavior_witness :
    (agenticReviewPR demoModel demoExec 3 "review this PR").turnCount = 3 ∧
    turnLimitWarning 3 ∈ (agenticReviewPR demoModel demoExec 3 "review this PR").warnings ∧
    (agenticReviewPR demoModel demoExec 3 "review this PR").reviewText =
      "Review could not be completed. Please try again." := by
  have h := agent_loop_turn_limit_behavior demoModel demoExec 3 "review this PR"
    (by omega) (fun _ => rfl)
    (fun _ => ⟨"id1", "read_file", demoInput, by simp [demoModel]⟩)
  exact ⟨h.1, h.2.1, h.2.2.2⟩
